import Mathlib

/-!
Verification development for the Chimera browser-automation core.

Each Rust function relevant to the checked properties is shallowly embedded
as an executable Lean definition.  Machine floating-point values are
idealised as exact rationals; where the source computes a square root or a
binary logarithm, the embedding threads the numeric primitive through as an
explicit function parameter so that no transcendental arithmetic has to be
axiomatised.  Randomness (`rand::thread_rng` draws) is determinised by an
oracle record whose fields are the values drawn at each call site, together
with a validity predicate stating the ranges the `gen_range` calls sample
from.  Fallible Rust code returns `Except`.
-/

set_option maxHeartbeats 1600000

namespace Chimera

/-! ### Engine-health verifier (`cortex.rs`, `Cortex::verify_engine_health`)

The probe script evaluated in the page inspects `navigator.webdriver`:
it reports `typeof`, the value itself, the derived flags `isUndefined`,
`isBoolean`, `isDirty`, and — only when the value is not `undefined` —
the `toString()` of the property getter (when one exists). -/

/-- A JavaScript value as far as the probe distinguishes values. -/
inductive JsVal : Type where
  | undef : JsVal
  | jsBool : Bool → JsVal
  | jsNum : JsVal
  | jsStr : String → JsVal
  | jsObj : JsVal
deriving DecidableEq

/-- The JavaScript `typeof` operator on the values above. -/
def typeOf : JsVal → String
  | .undef => "undefined"
  | .jsBool _ => "boolean"
  | .jsNum => "number"
  | .jsStr _ => "string"
  | .jsObj => "object"

/-- State of the page environment observed by the probe: the value of
`navigator.webdriver` and, when a getter for the property exists, that
getter's `toString()` text. -/
structure EngineState : Type where
  webdriver : JsVal
  getterToString : Option String
deriving DecidableEq

/-- The record the probe script returns to Rust.  Every field is optional
because the Rust side reads each one defensively with a default. -/
structure ProbeResult : Type where
  typeStr : Option String
  value : Option JsVal
  isUndefined : Option Bool
  isBoolean : Option Bool
  isDirty : Option Bool
  toStringSignature : Option String
deriving DecidableEq

/-- The probe script of `verify_engine_health`, evaluated on an engine
state.  Mirrors the in-page JavaScript: `isDirty` is
`type === 'boolean' || (type !== 'undefined' && value === true)`, and
`toStringResult` is assigned only when `navigator.webdriver !== undefined`
(so a getter that returns `undefined` is never inspected); the `try`/`catch`
arm is not modelled since the lookups here cannot throw. -/
def runHealthProbe (s : EngineState) : ProbeResult :=
  let t := typeOf s.webdriver
  { typeStr := some t
    value := some s.webdriver
    isUndefined := some (t == "undefined")
    isBoolean := some (t == "boolean")
    isDirty := some (t == "boolean" || (t != "undefined" && s.webdriver == .jsBool true))
    toStringSignature := if s.webdriver == .undef then none else s.getterToString }

/-- The Rust decision of `Cortex::verify_engine_health` on the parsed probe
record: each flag is read with default `false`; the engine is reported dirty
when `is_dirty || is_boolean || !is_undefined`.  The subsequent
`toString()` native-code inspection only emits log warnings and the Redis
session check is explicitly non-fatal, so neither changes the returned
value. -/
def verify_engine_health (r : ProbeResult) : Bool :=
  let isUndefined := r.isUndefined.getD false
  let isBoolean := r.isBoolean.getD false
  let isDirty := r.isDirty.getD false
  if isDirty || isBoolean || !isUndefined then false else true

/-- Engine-health verification run end to end on an engine state. -/
def verifyEngineHealthOn (s : EngineState) : Bool :=
  verify_engine_health (runHealthProbe s)

/-- Whether the character sequence `pat` starts the sequence `hay`. -/
def listStartsWith : List Char → List Char → Bool
  | [], _ => true
  | _ :: _, [] => false
  | p :: ps, h :: hs => p == h && listStartsWith ps hs

/-- Whether the character sequence `pat` occurs contiguously inside `hay`. -/
def listContainsSeq (pat : List Char) : List Char → Bool
  | [] => pat.isEmpty
  | h :: t => listStartsWith pat (h :: t) || listContainsSeq pat t

/-- Substring containment on strings (the `str::contains` of the source). -/
def strContainsSub (pat hay : String) : Bool :=
  listContainsSeq pat.toList hay.toList

/-- The spec sentence for C1, literally: clean iff `typeof` is
`"undefined"`, the value is the absent marker, and — when a getter exists —
its `toString()` contains the substring `"native code"`. -/
def engineCleanClaim (s : EngineState) : Prop :=
  typeOf s.webdriver = "undefined" ∧ s.webdriver = .undef ∧
    (∀ sig, s.getterToString = some sig → strContainsSub "native code" sig = true)

/-- An engine whose `webdriver` value is absent but whose getter (present,
as the sanitisation script installs one) has a non-native `toString`. -/
def wrappedGetterState : EngineState :=
  { webdriver := .undef, getterToString := some "() => undefined" }

/-! ### Sidecar proxy request handling (`stealth_transport.rs`) -/

/-- HTTP request method as the proxy distinguishes them. -/
inductive HttpMethod : Type where
  | connect : HttpMethod
  | other : String → HttpMethod
deriving DecidableEq

/-- The authority component of a request URI: host and optional port. -/
structure Authority : Type where
  host : String
  port : Option Nat
deriving DecidableEq

/-- The URI of a proxy request, as far as `host_addr` inspects it. -/
structure ProxyUri : Type where
  authority : Option Authority
deriving DecidableEq

/-- An incoming proxy request. -/
structure ProxyRequest : Type where
  method : HttpMethod
  uri : ProxyUri
deriving DecidableEq

/-- The function `host_addr`: extract `host:port` from the request URI, defaulting the
port to 443. -/
def host_addr (uri : ProxyUri) : Option String :=
  uri.authority.map (fun a => a.host ++ ":" ++ toString (a.port.getD 443))

/-- The externally visible effect of handling one proxy request: whether a
tunnel task towards some upstream address was spawned. -/
inductive TunnelEffect : Type where
  | none : TunnelEffect
  | opened : String → TunnelEffect
deriving DecidableEq

/-- Reply produced by `handle_proxy_request`: HTTP status plus the tunnel
effect.  The handler never contacts any other upstream, so the tunnel
effect is the complete outbound behaviour. -/
structure ProxyReply : Type where
  status : Nat
  tunnel : TunnelEffect
deriving DecidableEq

/-- The handler `handle_proxy_request`: CONNECT with a resolvable authority answers 200
and spawns the tunnel; CONNECT without an authority answers 400; every
other method is denied with 403 and no upstream contact. -/
def handle_proxy_request (req : ProxyRequest) : ProxyReply :=
  match req.method with
  | .connect =>
    match host_addr req.uri with
    | some addr => { status := 200, tunnel := .opened addr }
    | none => { status := 400, tunnel := .none }
  | .other _ => { status := 403, tunnel := .none }

/-! ### Theorems for C1 -/

/-- C1 counterexample: on an engine whose `webdriver` is absent but whose
getter has a non-native `toString()`, `verify_engine_health` returns `true`
although the claimed three-conjunct criterion is violated (the getter
exists and its `toString()` does not contain `"native code"`). -/
theorem C1_counterexample :
    verifyEngineHealthOn wrappedGetterState = true ∧ ¬ engineCleanClaim wrappedGetterState := by
  constructor
  · rfl
  · intro h
    have h3 := h.2.2 "() => undefined" rfl
    simp [strContainsSub, listContainsSeq, listStartsWith] at h3

/-- C1 amended: `verify_engine_health` returns `true` exactly when
`typeof navigator.webdriver` is `"undefined"` (equivalently, the value is
the absent marker); the native-code `toString()` condition is only a logged
warning and never affects the returned value. -/
theorem C1_verify_engine_health_iff (s : EngineState) :
    verifyEngineHealthOn s = true ↔ s.webdriver = .undef := by
  cases h : s.webdriver <;>
    simp [verifyEngineHealthOn, runHealthProbe, verify_engine_health, typeOf, h]

/-! ### Theorems for C5 and C10 -/

/-- C5: every non-CONNECT request is answered 403 Forbidden, with no tunnel
opened and no upstream contacted. -/
theorem C5_non_connect_forbidden (req : ProxyRequest) (h : req.method ≠ .connect) :
    handle_proxy_request req = { status := 403, tunnel := .none } := by
  cases hm : req.method with
  | connect => exact absurd hm h
  | other s => simp [handle_proxy_request, hm]

/-- C5 witness: a concrete GET request is answered 403 with no tunnel. -/
theorem C5_non_connect_forbidden_witness :
    ({ method := .other "GET", uri := { authority := none } } : ProxyRequest).method ≠ .connect ∧
      handle_proxy_request { method := .other "GET", uri := { authority := none } } =
        { status := 403, tunnel := .none } :=
  ⟨by decide, C5_non_connect_forbidden { method := .other "GET", uri := { authority := none } }
    (by decide)⟩

/-- C10: a CONNECT request whose authority has no explicit port is
tunnelled to the host on port 443, and a CONNECT request without an
authority is answered 400 Bad Request with no tunnel opened. -/
theorem C10_connect_default_port (host : String) :
    handle_proxy_request { method := .connect, uri := { authority := some { host := host, port := none } } } =
        { status := 200, tunnel := .opened (host ++ ":" ++ "443") } ∧
      handle_proxy_request { method := .connect, uri := { authority := none } } =
        { status := 400, tunnel := .none } := by
  have h443 : toString (443 : Nat) = "443" := rfl
  constructor
  · simp [handle_proxy_request, host_addr, h443]
  · rfl

/-! ### OODA click loop (`ooda.rs`, `execute_with_verification`)

Each attempt of the loop captures the visual hash, orients, clicks, waits,
and captures the visual hash again.  The environment is determinised as a
function from the attempt number to the pair (hash observed at the start of
the attempt, hash observed after the click); all intermediate effects
(screenshot, AX-tree snapshot, cognitive delay, vision call, click, sleeps)
do not influence the control flow, which branches only on hash equality. -/

/-- One iteration stratum of `execute_with_verification`: attempt counter
running from 0 to `maxRetries`, returning on the first attempt whose
before/after hashes differ, and otherwise the `ActionFailed` message built
by the source. -/
def oodaAttempt (hashes : Nat → String × String) (maxRetries : Nat) (attempt : Nat) :
    Except String Unit :=
  if _h : attempt < maxRetries then
    let initialHash := (hashes attempt).1
    let newHash := (hashes attempt).2
    if initialHash ≠ newHash then .ok ()
    else oodaAttempt hashes maxRetries (attempt + 1)
  else
    .error ("Action failed after " ++ toString maxRetries ++
      " retries - screen state did not change")
termination_by maxRetries - attempt

/-- The entry point `execute_with_verification`, started at attempt 0. -/
def execute_with_verification (hashes : Nat → String × String) (maxRetries : Nat) :
    Except String Unit :=
  oodaAttempt hashes maxRetries 0

/-- A hash environment on which the screen drifts between attempts: attempt
0 sees ("a", "a") and every later attempt sees ("b", "a"). -/
def driftingHashes : Nat → String × String :=
  fun i => if i = 0 then ("a", "a") else ("b", "a")

/-- Helper for C3: `oodaAttempt` starting at `attempt` succeeds exactly
when some attempt from `attempt` up to `maxRetries` observes differing
before/after hashes. -/
theorem oodaAttempt_ok_iff (hashes : Nat → String × String) (maxRetries : Nat) :
    ∀ k attempt, maxRetries - attempt = k →
      (oodaAttempt hashes maxRetries attempt = .ok () ↔
        ∃ i, attempt ≤ i ∧ i < maxRetries ∧ (hashes i).1 ≠ (hashes i).2) := by
  intro k
  induction k with
  | zero =>
    intro attempt hk
    rw [oodaAttempt]
    have hge : maxRetries ≤ attempt := by omega
    simp only [dif_neg (by omega : ¬ attempt < maxRetries)]
    constructor
    · intro h; exact absurd h (by simp)
    · rintro ⟨i, h1, h2, _⟩; omega
  | succ k ih =>
    intro attempt hk
    rw [oodaAttempt]
    have hlt : attempt < maxRetries := by omega
    simp only [dif_pos hlt]
    by_cases hne : (hashes attempt).1 ≠ (hashes attempt).2
    · simp only [if_pos hne]
      constructor
      · intro _; exact ⟨attempt, le_refl _, hlt, hne⟩
      · intro _; trivial
    · simp only [if_neg hne]
      rw [ih (attempt + 1) (by omega)]
      push_neg at hne
      constructor
      · rintro ⟨i, h1, h2, h3⟩; exact ⟨i, by omega, h2, h3⟩
      · rintro ⟨i, h1, h2, h3⟩
        rcases Nat.eq_or_lt_of_le h1 with heq | hlt2
        · exact absurd h3 (by rw [← heq]; simp [hne])
        · exact ⟨i, hlt2, h2, h3⟩

/-- Helper for C3: `oodaAttempt` either succeeds or fails with the
`ActionFailed` message naming the retry count. -/
theorem oodaAttempt_ok_or_error (hashes : Nat → String × String) (maxRetries : Nat) :
    ∀ k attempt, maxRetries - attempt = k →
      (oodaAttempt hashes maxRetries attempt = .ok () ∨
        oodaAttempt hashes maxRetries attempt =
          .error ("Action failed after " ++ toString maxRetries ++
            " retries - screen state did not change")) := by
  intro k
  induction k with
  | zero =>
    intro attempt hk
    rw [oodaAttempt]
    simp only [dif_neg (by omega : ¬ attempt < maxRetries)]
    simp
  | succ k ih =>
    intro attempt hk
    rw [oodaAttempt]
    simp only [dif_pos (by omega : attempt < maxRetries)]
    by_cases hne : (hashes attempt).1 ≠ (hashes attempt).2
    · simp only [if_pos hne]; simp
    · simp only [if_neg hne]; exact ih (attempt + 1) (by omega)

/-- C3 counterexample: with the drifting hash environment and
`max_retries = 2`, the loop returns Ok on attempt 2 (its freshly captured
baseline "b" differs from the post-click hash "a") even though no
post-click hash ever differs from the baseline `h0 = "a"` captured before
the first attempt — so success is not characterised by comparison against a
once-computed baseline. -/
theorem C3_counterexample :
    execute_with_verification driftingHashes 2 = .ok () ∧
      (∀ i, i < 2 → (driftingHashes i).2 = (driftingHashes 0).1) := by
  constructor
  · rw [execute_with_verification, oodaAttempt]
    norm_num [driftingHashes]
    rw [oodaAttempt]
    norm_num [driftingHashes]
    intro h
    exact absurd h (by decide)
  · decide

/-- C3 amended: `execute_with_verification` returns Ok exactly when some
attempt (0-indexed, below `max_retries`) observes a post-click hash that
differs from the hash captured at the start of that same attempt — the
baseline is re-captured on every attempt, not computed once — and in every
other case it returns the `ActionFailed` error naming the retry count and
stating that the screen state did not change. -/
theorem C3_execute_with_verification_spec (hashes : Nat → String × String) (maxRetries : Nat) :
    (execute_with_verification hashes maxRetries = .ok () ↔
      ∃ i, i < maxRetries ∧ (hashes i).1 ≠ (hashes i).2) ∧
    (execute_with_verification hashes maxRetries = .ok () ∨
      execute_with_verification hashes maxRetries =
        .error ("Action failed after " ++ toString maxRetries ++
          " retries - screen state did not change")) := by
  constructor
  · rw [execute_with_verification,
      oodaAttempt_ok_iff hashes maxRetries (maxRetries - 0) 0 rfl]
    constructor
    · rintro ⟨i, _, h2, h3⟩; exact ⟨i, h2, h3⟩
    · rintro ⟨i, h2, h3⟩; exact ⟨i, Nat.zero_le _, h2, h3⟩
  · exact oodaAttempt_ok_or_error hashes maxRetries (maxRetries - 0) 0 rfl

/-! ### Binary patcher (`binary_patch.rs`, `BinaryPatcher::apply_pattern`)

Bytes are modelled as natural numbers (their values are only ever compared
for equality).  The scanning loop advances `i` through the buffer; a Rust
slice-index panic (pattern longer than the buffer) and the divergence of a
zero-length equal-length pattern are both surfaced as `Except.error`, so
every `.ok` result corresponds to a normal return of the Rust function. -/

/-- A byte-substitution pattern: original bytes, replacement bytes, and a
description used in log lines. -/
structure PatchPattern : Type where
  original : List Nat
  replacement : List Nat
  description : String

/-- ASCII bytes of a pattern string literal. -/
def strBytes (s : String) : List Nat :=
  s.toList.map Char.toNat

/-- Declared pattern 1: `"webdriver"` → `"__chimera_internal__"` (lengths 9
and 20 — never applicable under the equal-length rule). -/
def webdriverPattern : PatchPattern :=
  { original := strBytes "webdriver"
    replacement := strBytes "__chimera_internal__"
    description := "Replace 'webdriver' internal string with innocuous identifier" }

/-- Declared pattern 2: `"Headless"` → `"Standard"` (equal length 8). -/
def headlessPattern : PatchPattern :=
  { original := strBytes "Headless"
    replacement := strBytes "Standard"
    description := "Replace 'Headless' in V8 isolate metadata" }

/-- The scanning loop of `apply_pattern`.  The loop guard is
`i <= data.len().saturating_sub(pattern_len)` (saturating subtraction is
Nat subtraction); inside the guard, the slice `data[i..i+pattern_len]`
panics when the pattern is longer than the buffer, modelled as an error;
on an equal-length match the bytes are overwritten in place and `i` skips
past the replacement, on a different-length match the pattern occurrence
is skipped with only a warning, otherwise `i` advances by one.  The fuel
argument models divergence (reachable only for an empty equal-length
pattern) as an error. -/
def applyPatternGo (orig repl : List Nat) :
    Nat → List Nat → Nat → Nat → Except String (List Nat × Nat)
  | 0, _, _, _ => .error "loop does not terminate"
  | fuel + 1, data, i, count =>
    if i ≤ data.length - orig.length then
      if orig.length ≤ data.length then
        if (data.drop i).take orig.length = orig then
          if repl.length = orig.length then
            applyPatternGo orig repl fuel
              (data.take i ++ repl ++ data.drop (i + orig.length))
              (i + orig.length) (count + 1)
          else
            applyPatternGo orig repl fuel data (i + 1) count
        else
          applyPatternGo orig repl fuel data (i + 1) count
      else
        .error "slice index out of range"
    else
      .ok (data, count)

/-- The method `BinaryPatcher::apply_pattern` on an in-memory buffer: returns the
patched buffer together with the replacement count. -/
def apply_pattern (data : List Nat) (p : PatchPattern) : Except String (List Nat × Nat) :=
  applyPatternGo p.original p.replacement (data.length + 2) data 0 0

/-- Helper for C4: every normal return of the scanning loop preserves the
buffer length, and under a different-length replacement it changes nothing
and counts no substitution. -/
theorem applyPatternGo_length (orig repl : List Nat) :
    ∀ fuel data i count out n,
      applyPatternGo orig repl fuel data i count = .ok (out, n) →
        out.length = data.length ∧
          (repl.length ≠ orig.length → out = data ∧ n = count) := by
  intro fuel
  induction fuel with
  | zero => intro data i count out n h; exact absurd h (by simp [applyPatternGo])
  | succ fuel ih =>
    intro data i count out n h
    rw [applyPatternGo] at h
    by_cases hg : i ≤ data.length - orig.length
    · rw [if_pos hg] at h
      by_cases hb : orig.length ≤ data.length
      · rw [if_pos hb] at h
        by_cases hm : (data.drop i).take orig.length = orig
        · rw [if_pos hm] at h
          by_cases hl : repl.length = orig.length
          · rw [if_pos hl] at h
            have hil : i + orig.length ≤ data.length := by omega
            have := ih _ _ _ _ _ h
            have hlen : (data.take i ++ repl ++ data.drop (i + orig.length)).length
                = data.length := by
              simp only [List.length_append, List.length_take, List.length_drop]
              omega
            constructor
            · rw [this.1, hlen]
            · intro hne; exact absurd hl hne
          · rw [if_neg hl] at h
            have := ih _ _ _ _ _ h
            exact ⟨this.1, fun hne => this.2 hne⟩
        · rw [if_neg hm] at h
          have := ih _ _ _ _ _ h
          exact ⟨this.1, fun hne => this.2 hne⟩
      · rw [if_neg hb] at h
        exact absurd h (by simp)
    · rw [if_neg hg] at h
      have hout : out = data ∧ n = count := by
        have := h
        simp only [Except.ok.injEq, Prod.mk.injEq] at this
        exact ⟨this.1.symm, this.2.symm⟩
      exact ⟨by rw [hout.1], fun _ => hout⟩

/-- C4: every normal return of `apply_pattern` yields a buffer of exactly
the pre-patch length; when the replacement length differs from the original
length the buffer is returned untouched with zero substitutions; and in
particular the declared `"webdriver"` → `"__chimera_internal__"` pattern is
never applied. -/
theorem C4_apply_pattern_length_invariant (data : List Nat) (p : PatchPattern)
    (out : List Nat) (n : Nat) (h : apply_pattern data p = .ok (out, n)) :
    out.length = data.length ∧
      (p.replacement.length ≠ p.original.length → out = data ∧ n = 0) ∧
      (p = webdriverPattern → out = data ∧ n = 0) := by
  have hmain := applyPatternGo_length p.original p.replacement _ _ _ _ _ _ h
  refine ⟨hmain.1, fun hne => hmain.2 hne, fun hp => ?_⟩
  apply hmain.2
  rw [hp]
  decide

/-- C4 witness: on the buffer holding the bytes of `"webdriver!"`, the
different-length webdriver pattern is skipped: the buffer is returned
unchanged, with length preserved and zero substitutions. -/
theorem C4_apply_pattern_length_invariant_witness :
    apply_pattern (strBytes "webdriver!") webdriverPattern =
        .ok (strBytes "webdriver!", 0) ∧
      ((strBytes "webdriver!").length = (strBytes "webdriver!").length ∧
        (webdriverPattern.replacement.length ≠ webdriverPattern.original.length →
          strBytes "webdriver!" = strBytes "webdriver!" ∧ 0 = 0) ∧
        (webdriverPattern = webdriverPattern →
          strBytes "webdriver!" = strBytes "webdriver!" ∧ 0 = 0)) :=
  ⟨rfl, C4_apply_pattern_length_invariant (strBytes "webdriver!") webdriverPattern
    (strBytes "webdriver!") 0 rfl⟩

/-! ### Session registry (`agent.rs`, `ChimeraAgentService::start_session`)

The process-wide `HashMap<String, Arc<Mutex<BrowserSession>>>` is modelled
as an association list with pairwise-distinct keys; `HashMap::insert`
replaces the value stored under an existing key.  Dropping the evicted
value corresponds to its disappearance from the map (the `Drop`
implementation of `BrowserSession` then terminates the browser process). -/

/-- A live browser session: an opaque handle to the launched browser
process plus the caller-chosen session id. -/
structure BrowserSession : Type where
  browser : Nat
  sessionId : String
deriving DecidableEq

/-- The session registry. -/
abbrev SessionMap := List (String × BrowserSession)

/-- The `HashMap::insert` semantics on the association-list model: replace the
entry under an existing key, otherwise add a new entry. -/
def insertSession : SessionMap → String → BrowserSession → SessionMap
  | [], sid, s => [(sid, s)]
  | (k, v) :: rest, sid, s =>
    if k = sid then (sid, s) :: rest else (k, v) :: insertSession rest sid s

/-- The RPC response of `StartSession`. -/
structure StartSessionResponse : Type where
  success : Bool
  message : String
deriving DecidableEq

/-- The handler `start_session`: launch a browser session (the launch outcome is an
input) and insert it into the registry under the requested id,
unconditionally replacing any session already stored there.  A launch
failure maps to the `internal` status; an existing entry is never treated
as an error. -/
def start_session (sessions : SessionMap) (sessionId : String)
    (launch : Except String BrowserSession) :
    Except String (SessionMap × StartSessionResponse) :=
  match launch with
  | .error e => .error ("Failed to start session: " ++ e)
  | .ok s => .ok (insertSession sessions sessionId s,
      { success := true, message := "Session started" })

/-- Lookup in the session registry. -/
def lookupSession : SessionMap → String → Option BrowserSession
  | [], _ => none
  | (k, v) :: rest, sid => if k = sid then some v else lookupSession rest sid

/-- Helper for C9: inserting preserves the key list whenever the key is
already bound. -/
theorem insertSession_keys (sid : String) (s : BrowserSession) :
    ∀ m : SessionMap, lookupSession m sid ≠ none →
      (insertSession m sid s).map Prod.fst = m.map Prod.fst := by
  intro m
  induction m with
  | nil => intro h; exact absurd rfl h
  | cons kv rest ih =>
    intro h
    rcases kv with ⟨k, v⟩
    by_cases hk : k = sid
    · simp [insertSession, hk]
    · have hrest : lookupSession rest sid ≠ none := by
        intro hn
        apply h
        simp only [lookupSession]
        rw [if_neg hk]
        exact hn
      simp only [insertSession]
      rw [if_neg hk]
      simp [ih hrest]

/-- Helper for C9: after inserting, looking up the inserted key returns the
new session. -/
theorem insertSession_lookup_self (sid : String) (s : BrowserSession) :
    ∀ m : SessionMap, lookupSession (insertSession m sid s) sid = some s := by
  intro m
  induction m with
  | nil => simp [insertSession, lookupSession]
  | cons kv rest ih =>
    rcases kv with ⟨k, v⟩
    by_cases hk : k = sid
    · simp [insertSession, hk, lookupSession]
    · simp only [insertSession]
      rw [if_neg hk]
      simp only [lookupSession]
      rw [if_neg hk]
      exact ih

/-- Helper for C9: after inserting, every other key is bound as before. -/
theorem insertSession_lookup_other (sid : String) (s : BrowserSession) :
    ∀ m : SessionMap, ∀ k, k ≠ sid →
      lookupSession (insertSession m sid s) k = lookupSession m k := by
  intro m
  induction m with
  | nil =>
    intro k hk
    simp only [insertSession, lookupSession]
    rw [if_neg (fun he => hk he.symm)]
  | cons kv rest ih =>
    intro k hk
    rcases kv with ⟨k0, v⟩
    by_cases hkv : k0 = sid
    · simp only [insertSession]
      rw [if_pos hkv]
      simp only [lookupSession]
      rw [if_neg (fun he => hk he.symm), hkv, if_neg (fun he => hk he.symm)]
    · simp only [insertSession]
      rw [if_neg hkv]
      simp only [lookupSession]
      by_cases hk0 : k0 = k
      · rw [if_pos hk0, if_pos hk0]
      · rw [if_neg hk0, if_neg hk0]
        exact ih k hk

/-- C9: `StartSession` with a session id already present in the registry
does not fail: the freshly launched session replaces the stored one, the
evicted session leaves the registry (so its `Drop` implementation
terminates its browser process), every other binding is untouched, and the
registry still holds exactly one session per id. -/
theorem C9_start_session_replaces (m : SessionMap) (sid : String)
    (old fresh : BrowserSession)
    (hdistinct : (m.map Prod.fst).Nodup) (hold : lookupSession m sid = some old) :
    ∃ m', start_session m sid (.ok fresh) =
        .ok (m', { success := true, message := "Session started" }) ∧
      lookupSession m' sid = some fresh ∧
      (∀ k, k ≠ sid → lookupSession m' k = lookupSession m k) ∧
      m'.map Prod.fst = m.map Prod.fst ∧
      (m'.map Prod.fst).Nodup := by
  refine ⟨insertSession m sid fresh, rfl, insertSession_lookup_self sid fresh m,
    insertSession_lookup_other sid fresh m, ?_, ?_⟩
  · exact insertSession_keys sid fresh m (by rw [hold]; simp)
  · rw [insertSession_keys sid fresh m (by rw [hold]; simp)]
    exact hdistinct

/-- C9 witness: replacing the only session of a one-entry registry. -/
theorem C9_start_session_replaces_witness :
    (([("s1", ⟨0, "s1"⟩)] : SessionMap).map Prod.fst).Nodup ∧
      lookupSession [("s1", ⟨0, "s1"⟩)] "s1" = some ⟨0, "s1"⟩ ∧
      ∃ m', start_session [("s1", ⟨0, "s1"⟩)] "s1" (.ok ⟨1, "s1"⟩) =
          .ok (m', { success := true, message := "Session started" }) ∧
        lookupSession m' "s1" = some ⟨1, "s1"⟩ ∧
        (∀ k, k ≠ "s1" → lookupSession m' k = lookupSession [("s1", ⟨0, "s1"⟩)] k) ∧
        m'.map Prod.fst = ([("s1", ⟨0, "s1"⟩)] : SessionMap).map Prod.fst ∧
        (m'.map Prod.fst).Nodup :=
  ⟨by simp, by simp [lookupSession],
    C9_start_session_replaces [("s1", ⟨0, "s1"⟩)] "s1" ⟨0, "s1"⟩ ⟨1, "s1"⟩
      (by simp) (by simp [lookupSession])⟩

/-! ### Accessibility-tree extraction (`cortex.rs`,
`Cortex::parse_ax_node_recursive` and `Cortex::snapshot_accessibility_tree`)

A raw CDP accessibility node carries optional `nodeId`, `role.value`,
`name.value`, `value.value`, `boundingBox`, a `properties` array, and
`childIds`.  The source resolves `childIds` through a map of all returned
nodes and recurses from every root; the embedding represents that resolved,
acyclic child structure directly as a forest, which is the shape the
recursion of the source traverses.  Bounding-box numbers are idealised as
rationals (they are only copied, never computed with). -/

/-- Bounds of an accessibility node in page pixels. -/
structure AxBounds : Type where
  x : ℚ
  y : ℚ
  width : ℚ
  height : ℚ
deriving DecidableEq

/-- A cleaned accessibility node as emitted into the `AxTree`. -/
structure AxNode : Type where
  node_id : String
  role : String
  name : Option String
  value : Option String
  parent_id : Option String
  bounds : Option AxBounds
  stateFlags : List String
deriving DecidableEq

mutual
/-- A raw CDP accessibility node: optional id, role, name, value and
bounds, the `properties` array as (name, optional boolean value) pairs, and
the resolved children. -/
inductive RawAxNode : Type where
  | mk : Option String → Option String → Option String → Option String →
      Option AxBounds → List (String × Option Bool) → RawAxForest → RawAxNode
/-- A sequence of raw CDP accessibility nodes. -/
inductive RawAxForest : Type where
  | nil : RawAxForest
  | cons : RawAxNode → RawAxForest → RawAxForest
end

mutual
/-- The parser `Cortex::parse_ax_node_recursive`: read role (default `"generic"`),
drop the node itself when the role is in the noise set, read id (default
empty), keep non-empty name and value, collect the names of boolean-true
properties, emit the node with the parent id it was *called* with, and
recurse into the children passing the current node id as their parent id —
whether or not the current node was dropped as noise. -/
def parse_ax_node_recursive (node : RawAxNode) (parentId : Option String) : List AxNode :=
  match node with
  | .mk rawId rawRole rawName rawValue rawBounds rawProps children =>
    let role := rawRole.getD "generic"
    let skipThisNode := role == "generic" || role == "LayoutTable" || role == "presentation"
    let nodeId := rawId.getD ""
    let nm := rawName.bind (fun s => if s.isEmpty then none else some s)
    let vl := rawValue.bind (fun s => if s.isEmpty then none else some s)
    let st := rawProps.filterMap
      (fun p => match p.2 with | some true => some p.1 | _ => none)
    let emitted := if skipThisNode then [] else
      [{ node_id := nodeId, role := role, name := nm, value := vl,
         parent_id := parentId, bounds := rawBounds, stateFlags := st }]
    emitted ++ parseAxChildren children (some nodeId)
/-- Children loop of `parse_ax_node_recursive`. -/
def parseAxChildren (f : RawAxForest) (parentId : Option String) : List AxNode :=
  match f with
  | .nil => []
  | .cons n rest => parse_ax_node_recursive n parentId ++ parseAxChildren rest parentId
end

/-- The extractor `Cortex::snapshot_accessibility_tree` on the resolved root forest: each
root is parsed with no parent id. -/
def snapshot_accessibility_tree (roots : RawAxForest) : List AxNode :=
  parseAxChildren roots none

mutual
/-- Every raw node of a forest in traversal order, paired with the parent
id its extraction is invoked with: the given id for the top-level nodes,
and for every deeper node the `nodeId` (after the empty-string default) of
its immediate raw parent. -/
def nodesWithParent : RawAxForest → Option String → List (Option String × RawAxNode)
  | .nil, _ => []
  | .cons n rest, pid => (pid, n) :: (nodesWithParentNode n ++ nodesWithParent rest pid)
/-- Every strict descendant of a raw node, paired with the `nodeId` of its
immediate raw parent. -/
def nodesWithParentNode : RawAxNode → List (Option String × RawAxNode)
  | .mk rawId _ _ _ _ _ children => nodesWithParent children (some (rawId.getD ""))
end

/-- Whether a raw node's role (after the `"generic"` default) is in the
noise set that `parse_ax_node_recursive` drops. -/
def isNoiseRaw : RawAxNode → Bool
  | .mk _ rawRole _ _ _ _ _ =>
    rawRole.getD "generic" == "generic" || rawRole.getD "generic" == "LayoutTable" ||
      rawRole.getD "generic" == "presentation"

/-- The `AxNode` that `parse_ax_node_recursive` emits for a raw node when
it is not dropped, given the parent id it is emitted under. -/
def emitAxNode (r : RawAxNode) (parentId : Option String) : AxNode :=
  match r with
  | .mk rawId rawRole rawName rawValue rawBounds rawProps _ =>
    { node_id := rawId.getD "", role := rawRole.getD "generic",
      name := rawName.bind (fun s => if s.isEmpty then none else some s),
      value := rawValue.bind (fun s => if s.isEmpty then none else some s),
      parent_id := parentId, bounds := rawBounds,
      stateFlags := rawProps.filterMap
        (fun p => match p.2 with | some true => some p.1 | _ => none) }

/-- The noise role set dropped during extraction. -/
def noiseRoles : List String := ["generic", "LayoutTable", "presentation"]

/-- A forest whose root is a noise (`generic`) container with a single
`button` child. -/
def noiseChildForest : RawAxForest :=
  .cons (.mk (some "1") (some "generic") none none none []
    (.cons (.mk (some "2") (some "button") none none none [] .nil) .nil)) .nil

/-- The node that extraction emits for the button child of
`noiseChildForest`: its parent id is the dropped generic node's id. -/
def liftedButtonNode : AxNode :=
  { node_id := "2", role := "button", name := none, value := none,
    parent_id := some "1", bounds := none, stateFlags := [] }

/-- Helper for C2: the extraction of `noiseChildForest` drops the generic
root but leaves its child pointing at the dropped id "1". -/
theorem noiseChildForest_snapshot :
    snapshot_accessibility_tree noiseChildForest = [liftedButtonNode] := by
  simp [snapshot_accessibility_tree, noiseChildForest, parseAxChildren,
    parse_ax_node_recursive, liftedButtonNode]

/-- C2 counterexample: in the tree extracted from `noiseChildForest` the
emitted button node's `parent_id` is "1", the id of the dropped generic
node, which is not the `node_id` of any emitted node — children of a
dropped noise node are not lifted under the nearest non-noise ancestor. -/
theorem C2_counterexample :
    ¬ (∀ n ∈ snapshot_accessibility_tree noiseChildForest, ∀ pid,
        n.parent_id = some pid →
          ∃ m ∈ snapshot_accessibility_tree noiseChildForest, m.node_id = pid) := by
  intro h
  have hmem : liftedButtonNode ∈ snapshot_accessibility_tree noiseChildForest := by
    rw [noiseChildForest_snapshot]; simp
  obtain ⟨m, hm, hid⟩ := h _ hmem "1" rfl
  rw [noiseChildForest_snapshot] at hm
  simp at hm
  rw [hm] at hid
  simp [liftedButtonNode] at hid

/-- Helper for C2: an emitted copy of a raw node carries exactly the
parent id it was emitted under. -/
theorem emitAxNode_parent (r : RawAxNode) (p : Option String) :
    (emitAxNode r p).parent_id = p := by
  rcases r with ⟨rawId, rawRole, rawName, rawValue, rawBounds, rawProps, children⟩
  rfl

/-- Helper for C2: the emitted copy of a non-noise raw node has a role
outside the noise set. -/
theorem emitAxNode_role_not_noise (r : RawAxNode) (p : Option String)
    (hb : isNoiseRaw r = false) : (emitAxNode r p).role ∉ noiseRoles := by
  rcases r with ⟨rawId, rawRole, rawName, rawValue, rawBounds, rawProps, children⟩
  simp only [isNoiseRaw, Bool.or_eq_false_iff, beq_eq_false_iff_ne] at hb
  simp [emitAxNode, noiseRoles, hb.1.1, hb.1.2, hb.2]

/-- Helper for C2, by strong induction on the forest size: the children
loop emits exactly the non-noise raw nodes of the forest, in traversal
order, each as `emitAxNode` under the parent id recorded by
`nodesWithParent` — i.e. under the `nodeId` of its immediate raw parent
(or the id the loop was called with, for the top-level nodes). -/
theorem parseAxChildren_eq_emission :
    ∀ k (f : RawAxForest) (pid : Option String), sizeOf f ≤ k →
      parseAxChildren f pid =
        (nodesWithParent f pid).filterMap
          (fun pr => if isNoiseRaw pr.2 then none else some (emitAxNode pr.2 pr.1)) := by
  intro k
  induction k with
  | zero =>
    intro f pid hk
    cases f with
    | nil => rw [parseAxChildren, nodesWithParent]; rfl
    | cons node rest =>
      exfalso
      have : 0 < sizeOf (RawAxForest.cons node rest) := by
        cases node; simp_arith
      omega
  | succ k ih =>
    intro f pid hk
    cases f with
    | nil => rw [parseAxChildren, nodesWithParent]; rfl
    | cons node rest =>
      rcases node with ⟨rawId, rawRole, rawName, rawValue, rawBounds, rawProps, children⟩
      have hszc : sizeOf children ≤ k := by
        have h1 : sizeOf (RawAxForest.cons
            (RawAxNode.mk rawId rawRole rawName rawValue rawBounds rawProps children)
            rest) = 1 + sizeOf (RawAxNode.mk rawId rawRole rawName rawValue rawBounds
            rawProps children) + sizeOf rest := by simp_arith
        have h2 : sizeOf children <
            sizeOf (RawAxNode.mk rawId rawRole rawName rawValue rawBounds rawProps
              children) := by simp_arith
        omega
      have hszr : sizeOf rest ≤ k := by
        have h1 : sizeOf (RawAxForest.cons
            (RawAxNode.mk rawId rawRole rawName rawValue rawBounds rawProps children)
            rest) = 1 + sizeOf (RawAxNode.mk rawId rawRole rawName rawValue rawBounds
            rawProps children) + sizeOf rest := by simp_arith
        omega
      simp only [parseAxChildren, parse_ax_node_recursive, nodesWithParent,
        nodesWithParentNode]
      rw [ih children (some (rawId.getD "")) hszc, ih rest pid hszr,
        List.filterMap_cons, List.filterMap_append]
      by_cases hb : (rawRole.getD "generic" == "generic"
          || rawRole.getD "generic" == "LayoutTable"
          || rawRole.getD "generic" == "presentation") = true
      · rw [if_pos hb]
        have hbn : isNoiseRaw
            (RawAxNode.mk rawId rawRole rawName rawValue rawBounds rawProps children)
              = true := hb
        simp [hbn]
      · rw [if_neg hb]
        have hbn : isNoiseRaw
            (RawAxNode.mk rawId rawRole rawName rawValue rawBounds rawProps children)
              = false := Bool.eq_false_iff.mpr hb
        simp [hbn, emitAxNode]

/-- C2 amended: in every extracted `AxTree` no emitted node has a role in
the noise set `{generic, LayoutTable, presentation}`, and every emitted
node is the emission of a raw node of the forest whose `parent_id` is
exactly the `nodeId` of its immediate raw parent (`none` for a root) —
which may itself be a dropped noise node, so the parent id may name a node
that is not emitted (children of a dropped noise node keep the dropped
node's id rather than being lifted under the nearest non-noise
ancestor). -/
theorem C2_snapshot_no_noise_raw_parent (roots : RawAxForest) (n : AxNode)
    (hn : n ∈ snapshot_accessibility_tree roots) :
    n.role ∉ noiseRoles ∧
      ∃ pr ∈ nodesWithParent roots none,
        isNoiseRaw pr.2 = false ∧ n = emitAxNode pr.2 pr.1 ∧ n.parent_id = pr.1 := by
  rw [snapshot_accessibility_tree,
    parseAxChildren_eq_emission (sizeOf roots) roots none (le_refl _)] at hn
  obtain ⟨pr, hpr, hfm⟩ := List.mem_filterMap.mp hn
  by_cases hb : isNoiseRaw pr.2 = true
  · rw [if_pos hb] at hfm
    exact absurd hfm (by simp)
  · have hb' : isNoiseRaw pr.2 = false := by simpa using hb
    rw [if_neg hb] at hfm
    have hn_eq : n = emitAxNode pr.2 pr.1 := by
      have := hfm
      simp only [Option.some.injEq] at this
      exact this.symm
    refine ⟨?_, pr, hpr, hb', hn_eq, ?_⟩
    · rw [hn_eq]
      exact emitAxNode_role_not_noise pr.2 pr.1 hb'
    · rw [hn_eq]
      exact emitAxNode_parent pr.2 pr.1

/-- C2 witness: the button node extracted from `noiseChildForest` has a
non-noise role and is the emission of the raw button node under the id "1"
of its immediate raw parent, the dropped generic root. -/
theorem C2_snapshot_no_noise_raw_parent_witness :
    liftedButtonNode ∈ snapshot_accessibility_tree noiseChildForest ∧
      (liftedButtonNode.role ∉ noiseRoles ∧
        ∃ pr ∈ nodesWithParent noiseChildForest none,
          isNoiseRaw pr.2 = false ∧ liftedButtonNode = emitAxNode pr.2 pr.1 ∧
            liftedButtonNode.parent_id = pr.1) := by
  have hmem : liftedButtonNode ∈ snapshot_accessibility_tree noiseChildForest := by
    rw [noiseChildForest_snapshot]; simp
  exact ⟨hmem, C2_snapshot_no_noise_raw_parent noiseChildForest _ hmem⟩

/-! ### WindMouse trajectory generator (`cortex.rs`,
`Cortex::generate_windmouse_trajectory`)

Coordinates are idealised as exact rationals.  Every comparison that the
source performs on a square root (`remaining_distance < 3.0`,
`> 1.0`, `velocity_mag > 10.0`, distance bands `< 100.0`, `< 500.0`)
compares against a perfect square, so it is translated exactly into the
equivalent comparison of squared magnitudes; the two places where the
square-root *value* enters the arithmetic (the gravity direction and the
velocity clamp, plus the `cos`/`sin` of `atan2` in the overshoot, which
equal the components of the unit approach vector) receive it from an
explicit `sqrtF` parameter standing for the machine `sqrt`.  All random
draws are supplied by a `WindOracle`; `WindOracle.Valid` records the
`gen_range` bounds (the Gaussian tremor samples are unbounded). -/

/-- One emitted trajectory point with the delay until the next point. -/
structure TrajPoint : Type where
  x : ℚ
  y : ℚ
  delayMs : Nat
deriving DecidableEq

/-- Squared euclidean distance between two points. -/
def distSq (x1 y1 x2 y2 : ℚ) : ℚ := (x2 - x1) ^ 2 + (y2 - y1) ^ 2

/-- The random draws consumed by one invocation of the generator, indexed
by loop iteration where the source draws inside the loop. -/
structure WindOracle : Type where
  stepsDraw : Nat → Nat → Nat
  windStrength : ℚ
  windFactorX : Nat → ℚ
  windFactorY : Nat → ℚ
  tremorX : Nat → ℚ
  tremorY : Nat → ℚ
  delayDraw : Nat → Nat
  overshootAmt : ℚ
  corrX : ℚ
  corrY : ℚ
  finalX : ℚ
  finalY : ℚ

/-- The ranges the source's `gen_range` calls draw from: `stepsDraw lo hi`
lies in `[lo, hi)`, the wind strength in `[0, 10)`, the per-axis wind
factors in `[-1, 1)`, per-step delays in `[5, 15)` ms, the overshoot length
in `[2, 4)`, and the correction and final jitters in `[-1, 1)`.  The
Gaussian tremor samples have unbounded support and are unconstrained. -/
def WindOracle.Valid (o : WindOracle) : Prop :=
  (∀ lo hi, lo < hi → lo ≤ o.stepsDraw lo hi ∧ o.stepsDraw lo hi < hi) ∧
  (0 ≤ o.windStrength ∧ o.windStrength < 10) ∧
  (∀ i, -1 ≤ o.windFactorX i ∧ o.windFactorX i < 1) ∧
  (∀ i, -1 ≤ o.windFactorY i ∧ o.windFactorY i < 1) ∧
  (∀ i, 5 ≤ o.delayDraw i ∧ o.delayDraw i < 15) ∧
  (2 ≤ o.overshootAmt ∧ o.overshootAmt < 4) ∧
  (-1 ≤ o.corrX ∧ o.corrX < 1) ∧ (-1 ≤ o.corrY ∧ o.corrY < 1) ∧
  (-1 ≤ o.finalX ∧ o.finalX < 1) ∧ (-1 ≤ o.finalY ∧ o.finalY < 1)

/-- Loop state: current position, velocity, and the trajectory built so
far. -/
structure WMState : Type where
  cx : ℚ
  cy : ℚ
  vx : ℚ
  vy : ℚ
  traj : List TrajPoint

/-- The `for i in 0..steps` loop of `generate_windmouse_trajectory`:
`rem` counts the remaining iterations, `i` the current iteration index.
Within the target area (squared distance < 9) and further than 1 px, an
overshoot point along the approach direction and a jittered correction
point are pushed and the loop breaks; within 1 px it breaks silently.
Otherwise wind and gravity update the velocity, which is clamped to
magnitude 10, the position advances and receives the Gaussian tremor, and
the reached position is pushed with the drawn delay. -/
def windmouseLoop (o : WindOracle) (sqrtF : ℚ → ℚ) (ex ey : ℚ) :
    Nat → Nat → WMState → List TrajPoint
  | _, 0, st => st.traj
  | i, rem + 1, st =>
    if distSq st.cx st.cy ex ey < 9 then
      if 1 < distSq st.cx st.cy ex ey then
        st.traj ++
          [{ x := st.cx + o.overshootAmt * ((ex - st.cx) / sqrtF (distSq st.cx st.cy ex ey))
             y := st.cy + o.overshootAmt * ((ey - st.cy) / sqrtF (distSq st.cx st.cy ex ey))
             delayMs := 10 },
           { x := ex + o.corrX, y := ey + o.corrY, delayMs := 20 }]
      else st.traj
    else
      windmouseLoop o sqrtF ex ey (i + 1) rem (wmStep o sqrtF ex ey i st)
where
  /-- One velocity-and-position update of the loop body. -/
  wmStep (o : WindOracle) (sqrtF : ℚ → ℚ) (ex ey : ℚ) (i : Nat) (st : WMState) : WMState :=
    let windX := o.windStrength * o.windFactorX i
    let windY := o.windStrength * o.windFactorY i
    let r := sqrtF (distSq st.cx st.cy ex ey)
    let vx0 := st.vx + (ex - st.cx) / r * 9 + windX
    let vy0 := st.vy + (ey - st.cy) / r * 9 + windY
    let vx1 := if 100 < vx0 ^ 2 + vy0 ^ 2 then vx0 / sqrtF (vx0 ^ 2 + vy0 ^ 2) * 10 else vx0
    let vy1 := if 100 < vx0 ^ 2 + vy0 ^ 2 then vy0 / sqrtF (vx0 ^ 2 + vy0 ^ 2) * 10 else vy0
    let cx1 := st.cx + vx1 + o.tremorX i
    let cy1 := st.cy + vy1 + o.tremorY i
    { cx := cx1, cy := cy1, vx := vx1, vy := vy1,
      traj := st.traj ++ [{ x := cx1, y := cy1, delayMs := o.delayDraw i }] }

/-- The trailing check of the generator: if the trajectory is empty or its
last point is farther than the target area from the goal, push the goal
with a `[-1, 1)` jitter per axis. -/
def applyFinalCheck (o : WindOracle) (ex ey : ℚ) (traj : List TrajPoint) : List TrajPoint :=
  let needFinal : Bool :=
    match traj.getLast? with
    | none => true
    | some p => decide (9 < distSq p.x p.y ex ey)
  if needFinal then traj ++ [{ x := ex + o.finalX, y := ey + o.finalY, delayMs := 10 }]
  else traj

/-- The generator `Cortex::generate_windmouse_trajectory`: choose the step count from the
distance band, run the WindMouse loop from the start position with zero
velocity, then apply the final-point check. -/
def generate_windmouse_trajectory (o : WindOracle) (sqrtF : ℚ → ℚ)
    (sx sy ex ey : ℚ) : List TrajPoint :=
  let steps :=
    if distSq sx sy ex ey < 10000 then o.stepsDraw 10 20
    else if distSq sx sy ex ey < 250000 then o.stepsDraw 20 35
    else o.stepsDraw 35 50
  applyFinalCheck o ex ey
    (windmouseLoop o sqrtF ex ey 0 steps { cx := sx, cy := sy, vx := 0, vy := 0, traj := [] })

/-- Helper for C6: whatever list the loop produced, the final check leaves
a non-empty trajectory whose last point is within the 3-px target area
(squared distance at most 9) of the goal, provided the final jitters come
from `[-1, 1)`. -/
theorem applyFinalCheck_last_close (o : WindOracle) (ex ey : ℚ) (traj : List TrajPoint)
    (hfx : -1 ≤ o.finalX ∧ o.finalX < 1) (hfy : -1 ≤ o.finalY ∧ o.finalY < 1) :
    ∃ p, (applyFinalCheck o ex ey traj).getLast? = some p ∧ distSq p.x p.y ex ey ≤ 9 := by
  have hjit : distSq (ex + o.finalX) (ey + o.finalY) ex ey ≤ 9 := by
    rw [distSq]
    nlinarith [mul_self_nonneg (1 - o.finalX), mul_self_nonneg (1 + o.finalX),
      mul_self_nonneg (1 - o.finalY), mul_self_nonneg (1 + o.finalY)]
  rcases hlast : traj.getLast? with _ | p
  · refine ⟨{ x := ex + o.finalX, y := ey + o.finalY, delayMs := 10 }, ?_, hjit⟩
    rw [applyFinalCheck, hlast]
    simp
  · by_cases hfar : 9 < distSq p.x p.y ex ey
    · refine ⟨{ x := ex + o.finalX, y := ey + o.finalY, delayMs := 10 }, ?_, hjit⟩
      rw [applyFinalCheck, hlast]
      simp [hfar]
    · refine ⟨p, ?_, le_of_not_lt hfar⟩
      rw [applyFinalCheck, hlast]
      simp [hfar, hlast]

/-- C6: for every start point, target point, square-root interpretation and
admissible outcome of the random draws, the generated trajectory is a
finite, non-empty point sequence whose final point lies within the 3-px
target-area radius of the goal. -/
theorem C6_windmouse_ends_in_target_area (o : WindOracle) (sqrtF : ℚ → ℚ)
    (sx sy ex ey : ℚ) (hv : o.Valid) :
    ∃ p, (generate_windmouse_trajectory o sqrtF sx sy ex ey).getLast? = some p ∧
      distSq p.x p.y ex ey ≤ 9 := by
  rw [generate_windmouse_trajectory]
  exact applyFinalCheck_last_close o ex ey _ hv.2.2.2.2.2.2.2.2.1 hv.2.2.2.2.2.2.2.2.2

/-- A fully deterministic admissible outcome of the random draws: every
`gen_range` takes the lowest value of its range and every Gaussian sample
is zero. -/
def zeroWindOracle : WindOracle :=
  { stepsDraw := fun lo _ => lo, windStrength := 0,
    windFactorX := fun _ => 0, windFactorY := fun _ => 0,
    tremorX := fun _ => 0, tremorY := fun _ => 0,
    delayDraw := fun _ => 5, overshootAmt := 2,
    corrX := 0, corrY := 0, finalX := 0, finalY := 0 }

/-- A second admissible outcome differing from `zeroWindOracle` in the
first tremor sample, the correction jitter and the final jitter. -/
def shiftedWindOracle : WindOracle :=
  { zeroWindOracle with tremorX := fun _ => 1/2, corrX := 1/2, finalX := 1/2 }

/-- Helper: the zero oracle is an admissible outcome of the draws. -/
theorem zeroWindOracle_valid : zeroWindOracle.Valid := by
  refine ⟨fun lo hi h => ⟨le_refl _, h⟩, ?_, ?_, ?_, ?_, ?_, ?_, ?_, ?_, ?_⟩ <;>
    norm_num [zeroWindOracle]

/-- Helper: the shifted oracle is an admissible outcome of the draws. -/
theorem shiftedWindOracle_valid : shiftedWindOracle.Valid := by
  refine ⟨fun lo hi h => ⟨le_refl _, h⟩, ?_, ?_, ?_, ?_, ?_, ?_, ?_, ?_, ?_⟩ <;>
    norm_num [shiftedWindOracle, zeroWindOracle]

/-- C6 witness: the zero oracle is admissible, and with it the trajectory
from the origin to the origin ends within the target area. -/
theorem C6_windmouse_ends_in_target_area_witness :
    zeroWindOracle.Valid ∧
      ∃ p, (generate_windmouse_trajectory zeroWindOracle (fun _ => 0) 0 0 0 0).getLast? =
          some p ∧ distSq p.x p.y 0 0 ≤ 9 :=
  ⟨zeroWindOracle_valid,
    C6_windmouse_ends_in_target_area zeroWindOracle (fun _ => 0) 0 0 0 0 zeroWindOracle_valid⟩

/-- Helper for C7: the loop only ever appends to the accumulated
trajectory. -/
theorem windmouseLoop_extends (o : WindOracle) (sqrtF : ℚ → ℚ) (ex ey : ℚ) :
    ∀ rem i st, ∃ rest, windmouseLoop o sqrtF ex ey i rem st = st.traj ++ rest := by
  intro rem
  induction rem with
  | zero => intro i st; exact ⟨[], by rw [windmouseLoop]; simp⟩
  | succ rem ih =>
    intro i st
    rw [windmouseLoop]
    by_cases h9 : distSq st.cx st.cy ex ey < 9
    · rw [if_pos h9]
      by_cases h1 : 1 < distSq st.cx st.cy ex ey
      · rw [if_pos h1]; exact ⟨_, rfl⟩
      · rw [if_neg h1]; exact ⟨[], by simp⟩
    · rw [if_neg h9]
      obtain ⟨rest, hrest⟩ := ih (i + 1) (windmouseLoop.wmStep o sqrtF ex ey i st)
      refine ⟨{ x := (windmouseLoop.wmStep o sqrtF ex ey i st).cx,
                y := (windmouseLoop.wmStep o sqrtF ex ey i st).cy,
                delayMs := o.delayDraw i } :: rest, ?_⟩
      rw [hrest]
      simp [windmouseLoop.wmStep]

/-- Helper for C7: the final check never changes the first trajectory
point. -/
theorem applyFinalCheck_head (o : WindOracle) (ex ey : ℚ) (p : TrajPoint)
    (rest : List TrajPoint) :
    (applyFinalCheck o ex ey (p :: rest)).head? = some p := by
  rw [applyFinalCheck]
  split
  · simp
  · simp

/-- Helper for C7: the final check is the identity when the last point is
already within the target area. -/
theorem applyFinalCheck_of_last_close (o : WindOracle) (ex ey : ℚ)
    (l : List TrajPoint) (p : TrajPoint) (hl : l.getLast? = some p)
    (hclose : ¬ 9 < distSq p.x p.y ex ey) :
    applyFinalCheck o ex ey l = l := by
  rw [applyFinalCheck, hl]
  simp [hclose]

/-- Helper for C7: the final check keeps a two-point trajectory whose
second point is within the target area. -/
theorem applyFinalCheck_two_point (o : WindOracle) (ex ey : ℚ) (t c : TrajPoint)
    (hclose : ¬ 9 < distSq c.x c.y ex ey) :
    applyFinalCheck o ex ey [t, c] = [t, c] :=
  applyFinalCheck_of_last_close o ex ey [t, c] c (by simp) hclose

/-- Helper for C7: the final check on an empty trajectory emits exactly the
jittered goal point. -/
theorem applyFinalCheck_nil (o : WindOracle) (ex ey : ℚ) :
    applyFinalCheck o ex ey [] =
      [{ x := ex + o.finalX, y := ey + o.finalY, delayMs := 10 }] := by
  rw [applyFinalCheck]
  simp

/-- Helper for C7: a point jittered off the goal by less than one pixel per
axis stays inside the target area. -/
theorem small_jitter_close (ex ey q : ℚ) (hq1 : -1 ≤ q) (hq2 : q < 1) :
    ¬ 9 < distSq (ex + q) (ey + 0) ex ey := by
  rw [distSq]
  push_neg
  nlinarith [mul_self_nonneg (1 - q), mul_self_nonneg (1 + q)]

/-- Helper for C7: two oracles with the same wind draws produce `wmStep`
positions differing exactly by the difference of their tremor draws. -/
theorem wmStep_tremor_shift (o₁ o₂ : WindOracle) (sqrtF : ℚ → ℚ) (ex ey : ℚ)
    (i : Nat) (st : WMState) (hw : o₁.windStrength = o₂.windStrength)
    (hfx : o₁.windFactorX = o₂.windFactorX) (hfy : o₁.windFactorY = o₂.windFactorY) :
    (windmouseLoop.wmStep o₂ sqrtF ex ey i st).cx =
      (windmouseLoop.wmStep o₁ sqrtF ex ey i st).cx - o₁.tremorX i + o₂.tremorX i := by
  simp only [windmouseLoop.wmStep, hw, hfx, hfy]
  ring

/-- Helper for C7: the trajectory accumulated by one `wmStep` is the old
trajectory extended by the newly reached position. -/
theorem wmStep_traj (o : WindOracle) (sqrtF : ℚ → ℚ) (ex ey : ℚ) (i : Nat) (st : WMState) :
    (windmouseLoop.wmStep o sqrtF ex ey i st).traj =
      st.traj ++ [{ x := (windmouseLoop.wmStep o sqrtF ex ey i st).cx,
                    y := (windmouseLoop.wmStep o sqrtF ex ey i st).cy,
                    delayMs := o.delayDraw i }] := by
  simp only [windmouseLoop.wmStep]

/-- C7: with identical declared inputs (start, target, and square-root
interpretation), the emitted point sequence is not a function of those
inputs alone — there are two admissible outcomes of the random draws whose
trajectories differ. -/
theorem C7_windmouse_nondeterministic (sqrtF : ℚ → ℚ) (sx sy ex ey : ℚ) :
    ∃ o₁ o₂ : WindOracle, o₁.Valid ∧ o₂.Valid ∧
      generate_windmouse_trajectory o₁ sqrtF sx sy ex ey ≠
        generate_windmouse_trajectory o₂ sqrtF sx sy ex ey := by
  refine ⟨zeroWindOracle, shiftedWindOracle, zeroWindOracle_valid, shiftedWindOracle_valid, ?_⟩
  have hdraw : ∀ o : WindOracle, o.stepsDraw = zeroWindOracle.stepsDraw →
      generate_windmouse_trajectory o sqrtF sx sy ex ey =
        applyFinalCheck o ex ey (windmouseLoop o sqrtF ex ey 0
          ((if distSq sx sy ex ey < 10000 then 10
            else if distSq sx sy ex ey < 250000 then 20 else 35) : Nat)
          { cx := sx, cy := sy, vx := 0, vy := 0, traj := [] }) := by
    intro o ho
    rw [generate_windmouse_trajectory, ho]
    split
    · rfl
    · split
      · rfl
      · rfl
  have hz := hdraw zeroWindOracle rfl
  have hs := hdraw shiftedWindOracle rfl
  rw [hz, hs]
  obtain ⟨k, hk⟩ : ∃ k, (if distSq sx sy ex ey < 10000 then (10:Nat)
      else if distSq sx sy ex ey < 250000 then 20 else 35) = k + 1 := by
    split
    · exact ⟨9, rfl⟩
    · split
      · exact ⟨19, rfl⟩
      · exact ⟨34, rfl⟩
  rw [hk]
  by_cases h9 : distSq sx sy ex ey < 9
  · by_cases h1 : 1 < distSq sx sy ex ey
    · -- first iteration takes the overshoot-and-correction branch
      have hloop : ∀ o : WindOracle,
          windmouseLoop o sqrtF ex ey 0 (k + 1)
            { cx := sx, cy := sy, vx := 0, vy := 0, traj := [] } =
          [{ x := sx + o.overshootAmt * ((ex - sx) / sqrtF (distSq sx sy ex ey)),
             y := sy + o.overshootAmt * ((ey - sy) / sqrtF (distSq sx sy ex ey)),
             delayMs := 10 },
           { x := ex + o.corrX, y := ey + o.corrY, delayMs := 20 }] := by
        intro o
        rw [windmouseLoop]
        simp only
        rw [if_pos h9, if_pos h1]
        simp
      have hcz : ¬ (9:ℚ) < distSq (ex + zeroWindOracle.corrX)
          (ey + zeroWindOracle.corrY) ex ey := by
        simp only [zeroWindOracle]
        exact small_jitter_close ex ey 0 (by norm_num) (by norm_num)
      have hcs : ¬ (9:ℚ) < distSq (ex + shiftedWindOracle.corrX)
          (ey + shiftedWindOracle.corrY) ex ey := by
        simp only [shiftedWindOracle, zeroWindOracle]
        exact small_jitter_close ex ey (1/2) (by norm_num) (by norm_num)
      rw [hloop, hloop,
        applyFinalCheck_two_point zeroWindOracle ex ey _
          { x := ex + zeroWindOracle.corrX, y := ey + zeroWindOracle.corrY,
            delayMs := 20 } hcz,
        applyFinalCheck_two_point shiftedWindOracle ex ey _
          { x := ex + shiftedWindOracle.corrX, y := ey + shiftedWindOracle.corrY,
            delayMs := 20 } hcs]
      intro hcontra
      simp only [List.cons.injEq, TrajPoint.mk.injEq, and_true] at hcontra
      have hx := hcontra.2.1
      simp only [zeroWindOracle, shiftedWindOracle] at hx
      have : (0:ℚ) = 1/2 := by linarith [hx]
      norm_num at this
    · -- within one pixel of the goal: the loop breaks silently
      have hloop : ∀ o : WindOracle,
          windmouseLoop o sqrtF ex ey 0 (k + 1)
            { cx := sx, cy := sy, vx := 0, vy := 0, traj := [] } = [] := by
        intro o
        rw [windmouseLoop]
        simp only
        rw [if_pos h9, if_neg h1]
      rw [hloop, hloop, applyFinalCheck_nil, applyFinalCheck_nil]
      intro hcontra
      simp only [List.cons.injEq, TrajPoint.mk.injEq, and_true] at hcontra
      have hx := hcontra.1
      simp only [zeroWindOracle, shiftedWindOracle] at hx
      have : (0:ℚ) = 1/2 := by linarith [hx]
      norm_num at this
  · -- the first iteration pushes a point carrying the tremor draw
    have hstep : ∀ o : WindOracle,
        windmouseLoop o sqrtF ex ey 0 (k + 1)
            { cx := sx, cy := sy, vx := 0, vy := 0, traj := [] } =
          windmouseLoop o sqrtF ex ey 1 k
            (windmouseLoop.wmStep o sqrtF ex ey 0
              { cx := sx, cy := sy, vx := 0, vy := 0, traj := [] }) := by
      intro o
      rw [windmouseLoop]
      simp only
      rw [if_neg h9]
    rw [hstep zeroWindOracle, hstep shiftedWindOracle]
    obtain ⟨restz, hrestz⟩ := windmouseLoop_extends zeroWindOracle sqrtF ex ey k 1
      (windmouseLoop.wmStep zeroWindOracle sqrtF ex ey 0
        { cx := sx, cy := sy, vx := 0, vy := 0, traj := [] })
    obtain ⟨rests, hrests⟩ := windmouseLoop_extends shiftedWindOracle sqrtF ex ey k 1
      (windmouseLoop.wmStep shiftedWindOracle sqrtF ex ey 0
        { cx := sx, cy := sy, vx := 0, vy := 0, traj := [] })
    rw [hrestz, hrests, wmStep_traj, wmStep_traj]
    simp only [List.nil_append, List.singleton_append]
    intro hcontra
    have hhead := congrArg List.head? hcontra
    rw [applyFinalCheck_head, applyFinalCheck_head] at hhead
    simp only [Option.some.injEq, TrajPoint.mk.injEq] at hhead
    have hx := hhead.1
    rw [wmStep_tremor_shift zeroWindOracle shiftedWindOracle sqrtF ex ey 0
      { cx := sx, cy := sy, vx := 0, vy := 0, traj := [] } rfl rfl rfl] at hx
    simp only [zeroWindOracle, shiftedWindOracle] at hx
    have : (0:ℚ) = 1/2 := by linarith [hx]
    norm_num at this

/-! ### Hick's-Law think delays (`ooda.rs` `apply_cognitive_delay` and
`cortex.rs` `Cortex::calculate_hicks_law_latency`)

Both delays count clickable-role nodes in an `AxTree` and feed the count
into `a + b·log2(n+1)`.  The machine `f64::log2` is threaded through as a
function parameter `log2F`; the `as u64` conversions of non-negative
values truncate toward zero and saturate at zero for negative values,
which is `Int.floor` followed by `Int.toNat` on the rational idealisation.
The OODA executor's delay adds the uniform `[0, 150)` ms jitter but has
*no* variance factor; only the Cortex latency multiplies the base time by
the uniform `[0.7, 1.3)` variance draw before adding the jitter. -/

/-- The clickable roles counted by `apply_cognitive_delay` in `ooda.rs`. -/
def oodaClickableRoles : List String :=
  ["button", "link", "textbox", "checkbox", "radio", "menuitem", "tab", "option"]

/-- The clickable roles counted by `calculate_hicks_law_latency` in
`cortex.rs`. -/
def cortexClickableRoles : List String :=
  ["button", "link", "textbox", "checkbox", "radio"]

/-- The function `apply_cognitive_delay` of the OODA executor, returning the slept
duration in milliseconds: `200 + (100 * log2(n+1)) as u64 + jitter`, with
`jitter` drawn from `[0, 150)`. -/
def apply_cognitive_delay (log2F : ℚ → ℚ) (tree : List AxNode) (jitter : Nat) : Nat :=
  let n := (tree.filter (fun nd => oodaClickableRoles.contains nd.role)).length
  let delayMs := 200 + (Int.floor (100 * log2F ((n : ℚ) + 1))).toNat
  delayMs + jitter

/-- The function `Cortex::calculate_hicks_law_latency`, returning the duration in
milliseconds: `((200 + 100 * log2(n+1)) * variance) as u64 + jitter`, with
`variance` drawn from `[0.7, 1.3)` and `jitter` from `[0, 150)`. -/
def calculate_hicks_law_latency (log2F : ℚ → ℚ) (tree : List AxNode)
    (variance : ℚ) (jitter : Nat) : Nat :=
  let n := (tree.filter (fun nd => cortexClickableRoles.contains nd.role)).length
  let baseTime : ℚ := 200 + 100 * log2F ((n : ℚ) + 1)
  (Int.floor (baseTime * variance)).toNat + jitter

/-- The delay formula asserted by the claim: the base time multiplied by
the variance draw, plus the jitter draw. -/
def hicksClaimDelay (log2F : ℚ → ℚ) (n : Nat) (variance jitter : ℚ) : ℚ :=
  (200 + 100 * log2F ((n : ℚ) + 1)) * variance + jitter

/-- A binary-logarithm interpretation that is exact at the only point the
counterexample evaluates it: `log2 2 = 1`. -/
def log2Probe : ℚ → ℚ := fun q => if q = 2 then 1 else 0

/-- A tree with exactly one clickable node (a button). -/
def oneButtonTree : List AxNode := [liftedButtonNode]

/-- C8 counterexample: on a tree with one clickable node, the delay slept
by the OODA executor before the click is 300 ms (plus jitter; here the
jitter draw is 0), while the claimed formula for the admissible variance
draw 7/10 ∈ [0.7, 1.3) gives 210 ms — `apply_cognitive_delay` has no
variance factor. -/
theorem C8_counterexample :
    log2Probe 2 = 1 ∧
      apply_cognitive_delay log2Probe oneButtonTree 0 = 300 ∧
      hicksClaimDelay log2Probe 1 (7/10) 0 = 210 ∧
      (apply_cognitive_delay log2Probe oneButtonTree 0 : ℚ) ≠
        hicksClaimDelay log2Probe 1 (7/10) 0 := by
  refine ⟨rfl, ?_, ?_, ?_⟩
  · norm_num [apply_cognitive_delay, oneButtonTree, liftedButtonNode,
      oodaClickableRoles, log2Probe]
    decide
  · norm_num [hicksClaimDelay, log2Probe]
  · norm_num [apply_cognitive_delay, hicksClaimDelay, oneButtonTree,
      liftedButtonNode, oodaClickableRoles, log2Probe]
    have h100 : (Int.toNat 100 : ℕ) = 100 := rfl
    rw [h100]
    norm_num

/-- C8 amended: the think delay slept by the OODA executor before a click
(`apply_cognitive_delay`) equals `200 + ⌊100·log2(n+1)⌋ + jitter` ms with
no variance factor, where n counts nodes whose role is one of button,
link, textbox, checkbox, radio, menuitem, tab, option; the
variance-multiplied formula `⌊(200 + 100·log2(n+1))·variance⌋ + jitter`
appears only in `Cortex::calculate_hicks_law_latency`, which counts the
five roles button, link, textbox, checkbox, radio and is reached only via
`Cortex::human_click`, a function none of the executor paths call. -/
theorem C8_cognitive_delay_formulas (log2F : ℚ → ℚ) (tree : List AxNode)
    (variance : ℚ) (jitter : Nat) :
    apply_cognitive_delay log2F tree jitter =
      200 + (Int.floor (100 * log2F
        ((tree.countP (fun nd => oodaClickableRoles.contains nd.role) : ℚ) + 1))).toNat
        + jitter ∧
    calculate_hicks_law_latency log2F tree variance jitter =
      (Int.floor ((200 + 100 * log2F
        ((tree.countP (fun nd => cortexClickableRoles.contains nd.role) : ℚ) + 1))
          * variance)).toNat + jitter := by
  constructor
  · rw [apply_cognitive_delay, List.countP_eq_length_filter]
  · rw [calculate_hicks_law_latency, List.countP_eq_length_filter]

end Chimera
